import Mathlib

/-!
Verification of the delivery-reliability core of the wopr WhatsApp plugin:
the retry engine (src/retry.ts), the message stream and its overflow
splitting (src/streaming.ts), the stream manager registry (src/streaming.ts)
and the reaction state machine.

JavaScript strings are modelled as `List Char`, JS numbers appearing as
millisecond amounts or jitter fractions as `ℚ`, HTTP-like status codes as
`Int`, and fallible async operations as explicit outcome oracles.  Every
definition mirrors the corresponding TypeScript function; side effects
(sends, logs, sleeps) are recorded in explicit traces.
-/

set_option maxRecDepth 20000

namespace Wopr

/-! ### Whitespace and trimming (JS `String.prototype.trim`, regex `\s`) -/

/-- The whitespace characters relevant to JS `trim` and the `\s` regex class
(restricted to the ASCII range that can occur in the plugin's text). -/
def isWsChar (c : Char) : Bool :=
  c == ' ' || c == '\n' || c == '\t' || c == '\r' || c == '\x0b' || c == '\x0c'

/-- JS `str.trim()` on a character list: drop leading and trailing whitespace. -/
def trimChars (l : List Char) : List Char :=
  (((l.dropWhile isWsChar).reverse.dropWhile isWsChar)).reverse

/-- The non-whitespace characters of a list, in order (used to state that
overflow splitting loses no visible character). -/
def nonWs (l : List Char) : List Char :=
  l.filter (fun c => !(isWsChar c))

/-! ### Retry engine: `src/retry.ts` -/

/-- `RetryConfig` from retry.ts.  Delays are millisecond amounts; the code's
defaults are integral, so `baseDelay`/`maxDelay` are naturals, while the
jitter fraction is a rational in `[0,1]`. -/
structure RetryConfig where
  maxRetries : ℕ
  baseDelay : ℕ
  maxDelay : ℕ
  jitter : ℚ
deriving DecidableEq

/-- `DEFAULT_RETRY_CONFIG` from retry.ts. -/
def DEFAULT_RETRY_CONFIG : RetryConfig :=
  { maxRetries := 3, baseDelay := 1000, maxDelay := 30000, jitter := 1/5 }

/-- The spec's validity constraints on a `RetryConfig`. -/
def RetryConfig.Valid (c : RetryConfig) : Prop :=
  0 < c.baseDelay ∧ c.baseDelay ≤ c.maxDelay ∧ 0 ≤ c.jitter ∧ c.jitter ≤ 1

/-- `ErrorClass` from retry.ts. -/
inductive ErrorClass where
  | retryable
  | permanent
deriving DecidableEq

/-- A model of an arbitrary JavaScript thrown value, carrying exactly the
observations retry.ts makes on it: whether it is a non-null object, whether it
is an `Error` instance, the numeric fields consulted by
`getErrorStatusCode` and `extractRetryAfter`, the `message` property
(already coerced by `String(...)`), and the `String(err)` representation. -/
structure ThrownValue where
  isObject : Bool
  isErrorInstance : Bool
  outputStatusCode : Option Int
  statusField : Option Int
  statusCodeField : Option Int
  messageField : Option String
  strRep : String
  retryAfterField : Option ℚ
  retryAfterSnakeField : Option ℚ
  retryAfterMsField : Option ℚ
  dataRetryAfterField : Option ℚ
deriving DecidableEq

/-- `getErrorStatusCode` from retry.ts: `output.statusCode`, else `status`,
else `statusCode`, provided the thrown value is a non-null object. -/
def getErrorStatusCode (err : ThrownValue) : Option Int :=
  if !err.isObject then none
  else
    match err.outputStatusCode with
    | some c => some c
    | none =>
      match err.statusField with
      | some c => some c
      | none => err.statusCodeField

/-- One step of `extractRetryAfter`'s key loop: a numeric field is used only
when strictly positive, scaled into milliseconds. -/
def retryAfterHit (v : Option ℚ) (scale : ℚ) : Option ℚ :=
  match v with
  | some x => if 0 < x then some (x * scale) else none
  | none => none

/-- `extractRetryAfter` from retry.ts: `retryAfter` and `retry_after` are in
seconds (scaled by 1000), `retryAfterMs` is already milliseconds; the
`data.retry_after` fallback is scaled by 1000 with no positivity check. -/
def extractRetryAfter (err : ThrownValue) : Option ℚ :=
  if !err.isObject then none
  else
    match retryAfterHit err.retryAfterField 1000 with
    | some r => some r
    | none =>
      match retryAfterHit err.retryAfterSnakeField 1000 with
      | some r => some r
      | none =>
        match retryAfterHit err.retryAfterMsField 1 with
        | some r => some r
        | none => err.dataRetryAfterField.map (fun x => x * 1000)

/-- The message string classifyError matches patterns against:
`err.message` for an `Error` instance, else `String(err.message)` when a
message property is present on an object, else `String(err)`. -/
def errorMessage (err : ThrownValue) : String :=
  if err.isErrorInstance then err.messageField.getD ""
  else if err.isObject && err.messageField.isSome then err.messageField.getD ""
  else err.strRep

/-- `PERMANENT_ERROR_PATTERNS` from retry.ts (each regex is a case-insensitive
literal substring, recorded here in lower case). -/
def PERMANENT_ERROR_PATTERNS : List String :=
  ["invalid jid", "not a valid", "not registered", "logged out",
   "authentication", "unauthorized", "forbidden", "not found", "bad request"]

/-- The alternatives of the transient connection/network regex in
`classifyError`, lower-cased. -/
def CONNECTION_ERROR_PATTERNS : List String :=
  ["econnreset", "etimedout", "enotfound", "enetunreach", "epipe",
   "econnrefused", "socket hang up", "socket closed", "connection closed",
   "network"]

/-- Whether `pat` is a prefix of `hay`. -/
def charsStartWith : List Char → List Char → Bool
  | [], _ => true
  | _ :: _, [] => false
  | p :: ps, h :: hs => p == h && charsStartWith ps hs

/-- Whether `pat` occurs as a contiguous substring of `hay`. -/
def charsContain (pat : List Char) : List Char → Bool
  | [] => pat.isEmpty
  | h :: hs => charsStartWith pat (h :: hs) || charsContain pat hs

/-- ASCII lower-casing of one character (the case folding relevant to the
`/i` regex flag on the ASCII patterns below). -/
def lowerChar (c : Char) : Char :=
  if ('A' ≤ c ∧ c ≤ 'Z') then Char.ofNat (c.toNat + 32) else c

/-- Case-insensitive test whether any pattern occurs as a substring of the
message (the patterns are literal, so regex `test` is substring search). -/
def matchesAnyPattern (pats : List String) (msg : String) : Bool :=
  pats.any (fun p => charsContain p.toList (msg.toList.map lowerChar))

/-- `PERMANENT_STATUS_CODES` from retry.ts. -/
def PERMANENT_STATUS_CODES : List Int := [400, 401, 403, 404, 410]

/-- `RATE_LIMIT_STATUS_CODES` from retry.ts. -/
def RATE_LIMIT_STATUS_CODES : List Int := [429, 503]

/-- The extracted status code is one of the permanent codes. -/
def statusIsPermanent (err : ThrownValue) : Bool :=
  (getErrorStatusCode err).elim false (fun c => PERMANENT_STATUS_CODES.contains c)

/-- The extracted status code is one of the rate-limit codes. -/
def statusIsRateLimit (err : ThrownValue) : Bool :=
  (getErrorStatusCode err).elim false (fun c => RATE_LIMIT_STATUS_CODES.contains c)

/-- The error message matches the permanent-failure vocabulary. -/
def messageIsPermanent (err : ThrownValue) : Bool :=
  matchesAnyPattern PERMANENT_ERROR_PATTERNS (errorMessage err)

/-- The error message matches a transient connection/network signature. -/
def messageIsTransient (err : ThrownValue) : Bool :=
  matchesAnyPattern CONNECTION_ERROR_PATTERNS (errorMessage err)

/-- `classifyError` from retry.ts, with the source's check order: permanent
status codes, then rate-limit codes, then permanent message patterns, then
transient network patterns, defaulting to retryable. -/
def classifyError (err : ThrownValue) : ErrorClass :=
  if statusIsPermanent err then .permanent
  else if statusIsRateLimit err then .retryable
  else if messageIsPermanent err then .permanent
  else if messageIsTransient err then .retryable
  else .retryable

/-- `calculateDelay` from retry.ts.  `rand` stands for the `Math.random()`
draw in `[0,1)`; a strictly positive retry-after hint short-circuits to
`min(hint, maxDelay)`, otherwise capped exponential backoff with symmetric
jitter, clamped at `0` and rounded to integral milliseconds. -/
def calculateDelay (attempt : ℕ) (config : RetryConfig) (retryAfterMs : Option ℚ)
    (rand : ℚ) : ℚ :=
  let exponential : ℚ := (config.baseDelay : ℚ) * 2 ^ attempt
  let capped : ℚ := min exponential (config.maxDelay : ℚ)
  let jitterRange : ℚ := capped * config.jitter
  let jitterOffset : ℚ := (rand * 2 - 1) * jitterRange
  let backoff : ℚ := max 0 ((round (capped + jitterOffset) : ℤ) : ℚ)
  match retryAfterMs with
  | some h => if 0 < h then min h (config.maxDelay : ℚ) else backoff
  | none => backoff

/-- Log events emitted by `withRetry`. -/
inductive LogEvent where
  | errorLog
  | warnLog
deriving DecidableEq

/-- Observable trace of one `withRetry` call: number of invocations of the
operation, the sequence of backoff sleeps performed, the log events, and the
final outcome (`ok` result or rethrown error). -/
structure RetryTrace (α : Type) where
  calls : ℕ
  delays : List ℚ
  logs : List LogEvent
  result : Except ThrownValue α

/-- The retry loop of `withRetry` from retry.ts.  `attempt` is the current
0-indexed attempt, `remaining = cfg.maxRetries - attempt` the number of
retries still allowed; `op k` is the outcome of the `k`-th invocation and
`rand k` the jitter draw used after it. -/
def withRetryRun {α : Type} (op : ℕ → Except ThrownValue α) (rand : ℕ → ℚ)
    (cfg : RetryConfig) : ℕ → ℕ → RetryTrace α
  | attempt, remaining =>
    match op attempt with
    | .ok a => ⟨1, [], [], .ok a⟩
    | .error e =>
      if classifyError e = .permanent then ⟨1, [], [.errorLog], .error e⟩
      else
        match remaining with
        | 0 => ⟨1, [], [.errorLog], .error e⟩
        | r + 1 =>
          let d := calculateDelay attempt cfg (extractRetryAfter e) (rand attempt)
          let t := withRetryRun op rand cfg (attempt + 1) r
          ⟨t.calls + 1, d :: t.delays, .warnLog :: t.logs, t.result⟩

/-- `withRetry` from retry.ts: run the loop from attempt 0 with
`cfg.maxRetries` retries allowed. -/
def withRetry {α : Type} (op : ℕ → Except ThrownValue α) (rand : ℕ → ℚ)
    (cfg : RetryConfig) : RetryTrace α :=
  withRetryRun op rand cfg 0 cfg.maxRetries

/-! ### Message streaming: `src/streaming.ts` -/

/-- `WHATSAPP_LIMIT` from streaming.ts. -/
def WHATSAPP_LIMIT : ℕ := 4096

/-- JS `text.lastIndexOf(c, upTo)`: the greatest index `i ≤ upTo` with
`text[i] = c`, if any.  Implemented as a single left-to-right scan keeping
the last hit. -/
def lastIndexOfLeAux (c : Char) (upTo : ℕ) : List Char → ℕ → Option ℕ → Option ℕ
  | [], _, acc => acc
  | x :: xs, i, acc =>
    lastIndexOfLeAux c upTo xs (i + 1) (if x == c && decide (i ≤ upTo) then some i else acc)

/-- JS `text.lastIndexOf(c, upTo)` (`none` models `-1`). -/
def lastIndexOfLe (text : List Char) (c : Char) (upTo : ℕ) : Option ℕ :=
  lastIndexOfLeAux c upTo text 0 none

/-- The sentence-terminating characters of the regex `[.!?]`. -/
def SENTENCE_END_CHARS : List Char := ['.', '!', '?']

/-- Scan for the greedy match length of `/.*[.!?]\s/s`: the largest `i + 1`
such that position `i` holds a whitespace character preceded by `.`, `!` or
`?`.  `prev` is the character at `i - 1`, `i` the index of the head of the
remaining list, `acc` the best match length so far. -/
def sentenceMatchLenAux : Char → ℕ → List Char → Option ℕ → Option ℕ
  | _, _, [], acc => acc
  | prev, i, x :: xs, acc =>
    sentenceMatchLenAux x (i + 1) xs
      (if SENTENCE_END_CHARS.contains prev && isWsChar x then some (i + 1) else acc)

/-- The length of the greedy match of `/.*[.!?]\s/s` against `s`
(`none` when the regex does not match). -/
def sentenceMatchLen (s : List Char) : Option ℕ :=
  match s with
  | [] => none
  | c :: rest => sentenceMatchLenAux c 1 rest none

/-- The final fallback stage of `findSplitPoint`: the last space at index
`≤ maxLen`, accepted when strictly past the midpoint (`> maxLen * 0.5`),
else the hard split at `maxLen`. -/
def findSplitPointSpace (text : List Char) (maxLen : ℕ) : ℕ :=
  match lastIndexOfLe text ' ' maxLen with
  | some j => if maxLen < 2 * j then j + 1 else maxLen
  | none => maxLen

/-- The newline stage of `findSplitPoint`: the last newline at index
`≤ maxLen` when strictly past the midpoint, else fall through to the
space stage. -/
def findSplitPointNewline (text : List Char) (maxLen : ℕ) : ℕ :=
  match lastIndexOfLe text '\n' maxLen with
  | some j => if maxLen < 2 * j then j + 1 else findSplitPointSpace text maxLen
  | none => findSplitPointSpace text maxLen

/-- `findSplitPoint` from streaming.ts: prefer the greedy sentence-boundary
match on the first `maxLen` characters, else the last newline at index
`≤ maxLen`, else the last space at index `≤ maxLen` — each accepted only when
strictly past the midpoint (`> maxLen * 0.5`) — else split hard at `maxLen`.
The accepted newline/space split point is the boundary index plus one. -/
def findSplitPoint (text : List Char) (maxLen : ℕ) : ℕ :=
  if text.length ≤ maxLen then text.length
  else
    match sentenceMatchLen (text.take maxLen) with
    | some m => if maxLen < 2 * m then m else findSplitPointNewline text maxLen
    | none => findSplitPointNewline text maxLen

/-- Whether `findSplitPoint` has an accepted boundary available: a sentence
boundary, newline or space in the search window passing the strict midpoint
test.  (The scans below are exactly the ones `findSplitPoint` consults, which
return the rightmost candidate, so failure here means every candidate
fails.) -/
def hasAcceptedBoundary (text : List Char) (maxLen : ℕ) : Bool :=
  ((sentenceMatchLen (text.take maxLen)).elim false (fun m => decide (maxLen < 2 * m)))
  || ((lastIndexOfLe text '\n' maxLen).elim false (fun j => decide (maxLen < 2 * j)))
  || ((lastIndexOfLe text ' ' maxLen).elim false (fun j => decide (maxLen < 2 * j)))

/-- Outcome of one `socket.sendMessage` call: resolve with a message key,
resolve without a key, or reject. -/
inductive SendOutcome where
  | okWithKey
  | okNoKey
  | sendFail
deriving DecidableEq

/-- The mutable state of a `WhatsAppMessageStream`, together with the
observable trace of attempted sends.  `limit` is the transport's hard
per-message character limit (`WHATSAPP_LIMIT` in the source); message keys
are identified by the index of the send that created them; `sends` records
every payload passed to `socket.sendMessage` (new sends and edits);
`flushSuccesses` counts flushes whose send resolved without throwing. -/
structure StreamState where
  limit : ℕ
  content : List Char
  messageKey : Option ℕ
  pendingContent : List (List Char)
  finalized : Bool
  cancelled : Bool
  lastFlushLength : ℕ
  completedKeys : List ℕ
  didStream : Bool
  sends : List (List Char)
  flushSuccesses : ℕ
deriving DecidableEq

/-- A fresh stream (the constructor of `WhatsAppMessageStream`). -/
def initStream (limit : ℕ) : StreamState :=
  { limit := limit, content := [], messageKey := none, pendingContent := [],
    finalized := false, cancelled := false, lastFlushLength := 0,
    completedKeys := [], didStream := false, sends := [], flushSuccesses := 0 }

/-- `flush` from streaming.ts.  `omg n` is the outcome of the `n`-th send
attempt (counted over the stream's lifetime).  Trimmed-empty or cancelled
streams and unchanged content are skipped; with no message key a successful
send that returns a key installs it and marks `didStream`; with a key the
send is an edit.  A rejected send is caught: only the attempt is recorded. -/
def flush (omg : ℕ → SendOutcome) (s : StreamState) : StreamState :=
  let text := trimChars s.content
  if text.isEmpty || s.cancelled then s
  else if text.length = s.lastFlushLength then s
  else
    match s.messageKey with
    | none =>
      match omg s.sends.length with
      | .sendFail => { s with sends := s.sends ++ [text] }
      | .okNoKey =>
        { s with sends := s.sends ++ [text], lastFlushLength := text.length,
                 flushSuccesses := s.flushSuccesses + 1 }
      | .okWithKey =>
        { s with sends := s.sends ++ [text], messageKey := some s.sends.length,
                 didStream := true, lastFlushLength := text.length,
                 flushSuccesses := s.flushSuccesses + 1 }
    | some _ =>
      match omg s.sends.length with
      | .sendFail => { s with sends := s.sends ++ [text] }
      | _ =>
        { s with sends := s.sends ++ [text], lastFlushLength := text.length,
                 flushSuccesses := s.flushSuccesses + 1 }

/-- Closing the current message in `handleOverflow`: push the open key onto
`completedKeys` and reset the handle. -/
def closeKey (s : StreamState) : StreamState :=
  match s.messageKey with
  | some k => { s with completedKeys := s.completedKeys ++ [k], messageKey := none }
  | none => s

/-- The head of `handleOverflow`: when the trimmed content before the split
point is non-empty, make it the content and flush it as the final payload of
the currently open message. -/
def overflowHead (omg : ℕ → SendOutcome) (s : StreamState) : StreamState :=
  if (trimChars (s.content.take (findSplitPoint s.content s.limit))).isEmpty then s
  else flush omg { s with content := trimChars (s.content.take (findSplitPoint s.content s.limit)) }

/-- One `handleOverflow` iteration without its tail: flush the head, close
the open message's key, and make the trimmed remainder the new content with
a reset flush watermark. -/
def overflowShift (omg : ℕ → SendOutcome) (s : StreamState) : StreamState :=
  { closeKey (overflowHead omg s) with
    content := trimChars (s.content.drop (findSplitPoint s.content s.limit)),
    lastFlushLength := 0 }

/-- `handleOverflow` from streaming.ts: split the content at
`findSplitPoint`, flush the trimmed head as the final payload of the open
message, close that message's key, continue with the trimmed remainder as
fresh content (`lastFlushLength = 0`), recursing while it still exceeds the
limit and flushing it otherwise.  The outer guard mirrors the call-site
condition `content.length > WHATSAPP_LIMIT`; the inner decrease check is
always true when `1 ≤ limit` and only guards termination. -/
def handleOverflow (omg : ℕ → SendOutcome) (s : StreamState) : StreamState :=
  if s.content.length ≤ s.limit then s
  else if s.limit < (trimChars (s.content.drop (findSplitPoint s.content s.limit))).length then
    if h : (trimChars (s.content.drop (findSplitPoint s.content s.limit))).length < s.content.length then
      handleOverflow omg (overflowShift omg s)
    else overflowShift omg s
  else if (trimChars (s.content.drop (findSplitPoint s.content s.limit))).isEmpty then
    overflowShift omg s
  else flush omg (overflowShift omg s)
termination_by s.content.length
decreasing_by
  simpa [overflowShift] using h

/-- `processPending` from streaming.ts (the periodic tick): skip when
cancelled or nothing is pending, otherwise drain all pending fragments
in arrival order into the content buffer, then overflow or flush.  The
re-entrancy flag is not modelled: in the single-threaded embedding each
tick runs atomically. -/
def processPending (omg : ℕ → SendOutcome) (s : StreamState) : StreamState :=
  if s.cancelled || s.pendingContent.isEmpty then s
  else
    let batch := s.pendingContent.flatten
    let s0 := { s with pendingContent := [] }
    if batch.isEmpty then s0
    else
      let s1 := { s0 with content := s0.content ++ batch }
      if s1.limit < s1.content.length then handleOverflow omg s1
      else flush omg s1

/-- `append` from streaming.ts: enqueue text unless finalized or cancelled. -/
def appendText (s : StreamState) (t : List Char) : StreamState :=
  if s.finalized || s.cancelled then s
  else { s with pendingContent := s.pendingContent ++ [t] }

/-- `cancel` from streaming.ts: idempotent, ignored after finalize. -/
def cancelStream (s : StreamState) : StreamState :=
  if s.finalized then s else { s with cancelled := true }

/-- `finalize` from streaming.ts: idempotent; mark finalized, drain pending
fragments, then one last flush when the content length changed. -/
def finalizeStream (omg : ℕ → SendOutcome) (s : StreamState) : StreamState :=
  if s.finalized then s
  else
    let s1 := { s with finalized := true }
    let s2 :=
      if 0 < s1.pendingContent.length ∧ s1.cancelled = false then processPending omg s1
      else s1
    if 0 < s2.content.length ∧ s2.content.length ≠ s2.lastFlushLength ∧ s2.cancelled = false then
      flush omg s2
    else s2

/-- The externally triggerable events in a stream's lifetime. -/
inductive StreamOp where
  | appendOp (t : List Char)
  | tick
  | finalizeOp
  | cancelOp

/-- Apply one lifetime event. -/
def streamStep (omg : ℕ → SendOutcome) (s : StreamState) : StreamOp → StreamState
  | .appendOp t => appendText s t
  | .tick => processPending omg s
  | .finalizeOp => finalizeStream omg s
  | .cancelOp => cancelStream s

/-- Run a stream from creation through a sequence of lifetime events. -/
def runStream (omg : ℕ → SendOutcome) (limit : ℕ) (ops : List StreamOp) : StreamState :=
  ops.foldl (streamStep omg) (initStream limit)

/-! ### Reaction state machine (reactions module) -/

/-- `ReactionState` from the reactions module. -/
inductive ReactionState where
  | queued
  | active
  | done
  | error
  | timeout
deriving DecidableEq

/-- `DEFAULT_REACTION_EMOJIS` from the reactions module. -/
def DEFAULT_REACTION_EMOJIS : ReactionState → String
  | .queued => "⏳"
  | .active => "🔄"
  | .done => "✅"
  | .error => "❌"
  | .timeout => "⏰"

/-- `VALID_TRANSITIONS` from the reactions module. -/
def VALID_TRANSITIONS : ReactionState → List ReactionState
  | .queued => [.active, .done, .error, .timeout]
  | .active => [.done, .error, .timeout]
  | .done => []
  | .error => []
  | .timeout => []

/-- `isTerminal` from the reactions module (on the nullable state). -/
def isTerminalState : Option ReactionState → Bool
  | some .done => true
  | some .error => true
  | some .timeout => true
  | _ => false

/-- Observable outcome of one `transition` call: the returned boolean, the
state afterwards, the emojis passed to `sendReaction`, and whether a
send-failure warning was logged. -/
structure TransitionResult where
  accepted : Bool
  state : Option ReactionState
  sent : List String
  warned : Bool
deriving DecidableEq

/-- `ReactionStateMachine.transition` from the reactions module.  `st` is the
current (nullable) state and `sendFails` tells whether the `sendReaction`
promise rejects.  A first transition must be to `queued`; terminal states
silently absorb; other targets must be in `VALID_TRANSITIONS`; an accepted
transition updates the state before sending, and a rejected send is caught
and warning-logged without rollback. -/
def transition (emojis : ReactionState → String) (st : Option ReactionState)
    (newState : ReactionState) (sendFails : Bool) : TransitionResult :=
  match st with
  | none =>
    if newState ≠ .queued then ⟨false, none, [], false⟩
    else ⟨true, some newState, [emojis newState], sendFails⟩
  | some s =>
    if isTerminalState (some s) then ⟨false, some s, [], false⟩
    else if !(VALID_TRANSITIONS s).contains newState then ⟨false, some s, [], false⟩
    else ⟨true, some newState, [emojis newState], sendFails⟩

/-! ### Stream manager: `src/streaming.ts` -/

/-- The `StreamManager` registry: chat jid to stream state (a JS `Map` with
unique keys, modelled as an association list). -/
abbrev Registry : Type := List (String × StreamState)

/-- Removal of a key from the registry (`Map.delete`). -/
def eraseKey (jid : String) (reg : Registry) : Registry :=
  List.filter (fun p => !(p.1 == jid)) reg

/-- `StreamManager.get`: return the live stream, lazily evicting a stream
that reached a terminal (finalized or cancelled) state. -/
def mgrGet (reg : Registry) (jid : String) : Option StreamState × Registry :=
  match List.lookup jid reg with
  | some s =>
    if s.finalized || s.cancelled then (none, eraseKey jid reg)
    else (some s, reg)
  | none => (none, reg)

/-- `StreamManager.interrupt`: cancel and remove a non-finalized stream,
reporting whether one existed. -/
def mgrInterrupt (reg : Registry) (jid : String) : Bool × Registry :=
  match List.lookup jid reg with
  | some s =>
    if !s.finalized then (true, eraseKey jid reg)
    else (false, reg)
  | none => (false, reg)

/-- `StreamManager.finalize`: finalize and remove the stream, returning its
`didStream` flag. -/
def mgrFinalize (omg : ℕ → SendOutcome) (reg : Registry) (jid : String) :
    Bool × Registry :=
  match List.lookup jid reg with
  | some s => ((finalizeStream omg s).didStream, eraseKey jid reg)
  | none => (false, reg)

/-- `StreamManager.create`: cancel an existing non-finalized stream for the
jid (interruption), then register and return a fresh stream. -/
def mgrCreate (limit : ℕ) (reg : Registry) (jid : String) : Registry :=
  (jid, initStream limit) :: eraseKey jid reg

/-! ### Concrete instances used by witnesses and counterexamples -/

/-- A thrown value with status 404 and message "not found". -/
def notFoundErr : ThrownValue :=
  { isObject := true, isErrorInstance := true, outputStatusCode := none,
    statusField := some 404, statusCodeField := none,
    messageField := some ("Request failed: not found"), strRep := "",
    retryAfterField := none, retryAfterSnakeField := none,
    retryAfterMsField := none, dataRetryAfterField := none }

/-- A thrown value with rate-limit status 429 whose message nevertheless
matches the permanent vocabulary ("invalid jid"). -/
def rateLimitInvalidJidErr : ThrownValue :=
  { isObject := true, isErrorInstance := true, outputStatusCode := none,
    statusField := some 429, statusCodeField := none,
    messageField := some ("invalid jid"), strRep := "",
    retryAfterField := none, retryAfterSnakeField := none,
    retryAfterMsField := none, dataRetryAfterField := none }

/-- A thrown value with permanent status 400 whose message matches a
transient network signature ("connect ETIMEDOUT"). -/
def badRequestTimeoutErr : ThrownValue :=
  { isObject := true, isErrorInstance := true, outputStatusCode := none,
    statusField := some 400, statusCodeField := none,
    messageField := some ("connect ETIMEDOUT"), strRep := "",
    retryAfterField := none, retryAfterSnakeField := none,
    retryAfterMsField := none, dataRetryAfterField := none }

/-- A retryable thrown value: status 503, no retry-after hint. -/
def unavailableErr : ThrownValue :=
  { isObject := true, isErrorInstance := true, outputStatusCode := none,
    statusField := some 503, statusCodeField := none,
    messageField := some ("Service Unavailable"), strRep := "",
    retryAfterField := none, retryAfterSnakeField := none,
    retryAfterMsField := none, dataRetryAfterField := none }

/-- An operation that always rejects with `unavailableErr`. -/
def alwaysUnavailable : ℕ → Except ThrownValue ℕ := fun _ => .error unavailableErr

/-- An operation that always rejects with `notFoundErr`. -/
def alwaysNotFound : ℕ → Except ThrownValue ℕ := fun _ => .error notFoundErr

/-- A fixed jitter draw. -/
def zeroRand : ℕ → ℚ := fun _ => 0

/-- A jitter-free retry configuration. -/
def zeroJitterConfig : RetryConfig :=
  { maxRetries := 3, baseDelay := 1000, maxDelay := 30000, jitter := 0 }

/-- A transport whose sends always resolve with a message key. -/
def okSend : ℕ → SendOutcome := fun _ => SendOutcome.okWithKey

/-- Content one character over `WHATSAPP_LIMIT` whose only boundary is a
space at index exactly `WHATSAPP_LIMIT`. -/
def cexChars : List Char := List.replicate 4096 ('x') ++ [' ']

/-- Append that content and let one flush tick run. -/
def cexOps : List StreamOp := [StreamOp.appendOp cexChars, StreamOp.tick]

/-- The counterexample stream after the append, before the tick. -/
def cexAfterAppend : StreamState :=
  { initStream WHATSAPP_LIMIT with pendingContent := [cexChars] }

/-- The counterexample stream at the entry of `handleOverflow`. -/
def cexOverflowState : StreamState :=
  { initStream WHATSAPP_LIMIT with content := cexChars }

/-- A small stream state in overflow, used to instantiate the overflow
splitting theorem. -/
def smallOverflowState : StreamState :=
  { limit := 4, content := ("ab cd e").toList, messageKey := none,
    pendingContent := [], finalized := false, cancelled := false,
    lastFlushLength := 0, completedKeys := [], didStream := false,
    sends := [], flushSuccesses := 0 }

/-- A finalized stream. -/
def finalizedStream : StreamState :=
  { initStream WHATSAPP_LIMIT with finalized := true }

/-- A registry holding one finalized stream. -/
def finalizedRegistry : Registry := [("jid1", finalizedStream)]

/-! ## Theorems -/

/-! ### Claims C1 and C2: error classification -/

/-- Claim C1 as stated is false on the code: a thrown value whose message
matches the permanent-failure vocabulary ("invalid jid") but whose status
code is 429 is classified retryable, because `classifyError` consults the
rate-limit status codes before the message patterns. -/
theorem claim_C1_counterexample :
    ¬ ((statusIsPermanent rateLimitInvalidJidErr = true ∨
        messageIsPermanent rateLimitInvalidJidErr = true) →
       classifyError rateLimitInvalidJidErr = ErrorClass.permanent) := by
  decide

/-- Claim C1, amended for the source's check order: for every thrown value
whose status code is permanent, or whose status code is not a rate-limit
code and whose message matches the permanent-failure vocabulary,
`classifyError` returns permanent, and `withRetry` on an operation whose
first invocation throws that value invokes it exactly once, sleeps never,
logs one error and rethrows the same value. -/
theorem claim_C1_amended {α : Type} (e : ThrownValue) (op : ℕ → Except ThrownValue α)
    (rand : ℕ → ℚ) (cfg : RetryConfig)
    (h : statusIsPermanent e = true ∨
         (statusIsRateLimit e = false ∧ messageIsPermanent e = true)) :
    classifyError e = ErrorClass.permanent ∧
      (op 0 = .error e →
        withRetry op rand cfg = ⟨1, [], [.errorLog], .error e⟩) := by
  have hc : classifyError e = ErrorClass.permanent := by
    rcases h with h1 | ⟨h1, h2⟩
    · simp [classifyError, h1]
    · cases hsp : statusIsPermanent e <;> simp [classifyError, hsp, h1, h2]
  refine ⟨hc, fun hop => ?_⟩
  unfold withRetry
  rw [withRetryRun, hop]
  simp [hc]

/-- Witness for C1 at a thrown value with status 404. -/
theorem claim_C1_witness :
    (statusIsPermanent notFoundErr = true) ∧
      (classifyError notFoundErr = ErrorClass.permanent ∧
        (alwaysNotFound 0 = .error notFoundErr →
          withRetry alwaysNotFound zeroRand DEFAULT_RETRY_CONFIG =
            ⟨1, [], [.errorLog], .error notFoundErr⟩)) :=
  ⟨by decide,
   claim_C1_amended notFoundErr alwaysNotFound zeroRand DEFAULT_RETRY_CONFIG
     (Or.inl (by decide))⟩

/-- Claim C2 as stated is false on the code: a thrown value whose message
matches a transient network signature ("connect ETIMEDOUT") but whose
status code is 400 is classified permanent, because the permanent status
codes are consulted before the message patterns. -/
theorem claim_C2_counterexample :
    ¬ ((statusIsRateLimit badRequestTimeoutErr = true ∨
        messageIsTransient badRequestTimeoutErr = true ∨
        (getErrorStatusCode badRequestTimeoutErr = none ∧
          messageIsPermanent badRequestTimeoutErr = false ∧
          messageIsTransient badRequestTimeoutErr = false)) →
       classifyError badRequestTimeoutErr = ErrorClass.retryable) := by
  decide

/-- Claim C2, amended for the source's check order: a thrown value is
classified retryable when its status code is a rate-limit code; or when its
status code is not a permanent code and its message matches a transient
network signature without matching the permanent vocabulary; or when it has
no extractable status code and its message matches no recognized pattern. -/
theorem claim_C2_amended (e : ThrownValue)
    (h : statusIsRateLimit e = true ∨
         (statusIsPermanent e = false ∧ messageIsPermanent e = false ∧
           messageIsTransient e = true) ∨
         (getErrorStatusCode e = none ∧ messageIsPermanent e = false ∧
           messageIsTransient e = false)) :
    classifyError e = ErrorClass.retryable := by
  rcases h with h1 | ⟨h1, h2, h3⟩ | ⟨h1, h2, h3⟩
  · have hsp : statusIsPermanent e = false := by
      rcases hg : getErrorStatusCode e with _ | c
      · simp [statusIsPermanent, hg]
      · rw [statusIsRateLimit, hg] at h1
        simp only [Option.elim] at h1
        rw [statusIsPermanent, hg]
        simp only [Option.elim]
        rw [RATE_LIMIT_STATUS_CODES, List.contains_eq_any_beq] at h1
        simp only [List.any_cons, List.any_nil, Bool.or_false, Bool.or_eq_true,
          beq_iff_eq] at h1
        rcases h1 with rfl | rfl <;> decide
    simp [classifyError, hsp, h1]
  · simp [classifyError, h1, h2, h3]
  · have hsp : statusIsPermanent e = false := by simp [statusIsPermanent, h1]
    have hsr : statusIsRateLimit e = false := by simp [statusIsRateLimit, h1]
    simp [classifyError, hsp, hsr, h2, h3]

/-- Witness for C2 at a thrown value with status 503. -/
theorem claim_C2_witness :
    (statusIsRateLimit unavailableErr = true) ∧
      classifyError unavailableErr = ErrorClass.retryable :=
  ⟨by decide, claim_C2_amended unavailableErr (Or.inl (by decide))⟩

/-! ### Claim C3: exhaustion of retries -/

/-- The retry loop against operations that keep failing retryably: starting
at `attempt` with `remaining` retries allowed, it performs `remaining + 1`
invocations and ends with the outcome of the last one. -/
theorem withRetryRun_exhaust {α : Type} (op : ℕ → Except ThrownValue α)
    (rand : ℕ → ℚ) (cfg : RetryConfig) :
    ∀ remaining attempt,
      (∀ k, attempt ≤ k → k ≤ attempt + remaining →
        ∃ e, op k = .error e ∧ classifyError e = ErrorClass.retryable) →
      (withRetryRun op rand cfg attempt remaining).calls = remaining + 1 ∧
      (withRetryRun op rand cfg attempt remaining).result = op (attempt + remaining) := by
  intro remaining
  induction remaining with
  | zero =>
    intro attempt h
    obtain ⟨e, he, hr⟩ := h attempt (Nat.le_refl _) (Nat.le_refl _)
    rw [withRetryRun, he]
    simp [hr, he]
  | succ r ih =>
    intro attempt h
    obtain ⟨e, he, hr⟩ := h attempt (Nat.le_refl _) (by omega)
    have ih2 := ih (attempt + 1) (fun k hk1 hk2 => h k (by omega) (by omega))
    have harith : attempt + 1 + r = attempt + (r + 1) := by omega
    rw [harith] at ih2
    rw [withRetryRun, he]
    simp [hr, ih2.1, ih2.2]

/-- Claim C3: for every `N ≥ 0`, `withRetry` with `maxRetries = N` against an
operation whose every invocation throws a retryable-classified error invokes
the operation exactly `N + 1` times and rethrows the error of the final
invocation. -/
theorem claim_C3 {α : Type} (op : ℕ → Except ThrownValue α) (rand : ℕ → ℚ)
    (cfg : RetryConfig)
    (h : ∀ k, k ≤ cfg.maxRetries →
      ∃ e, op k = .error e ∧ classifyError e = ErrorClass.retryable) :
    (withRetry op rand cfg).calls = cfg.maxRetries + 1 ∧
      (withRetry op rand cfg).result = op cfg.maxRetries := by
  have := withRetryRun_exhaust op rand cfg cfg.maxRetries 0
    (fun k hk1 hk2 => h k (by omega))
  simpa [withRetry] using this

/-- Witness for C3: the default configuration (3 retries) against an
always-503 operation makes exactly 4 invocations and rethrows. -/
theorem claim_C3_witness :
    (∀ k, k ≤ DEFAULT_RETRY_CONFIG.maxRetries →
      ∃ e, alwaysUnavailable k = .error e ∧
        classifyError e = ErrorClass.retryable) ∧
      (withRetry alwaysUnavailable zeroRand DEFAULT_RETRY_CONFIG).calls = 4 ∧
      (withRetry alwaysUnavailable zeroRand DEFAULT_RETRY_CONFIG).result =
        .error unavailableErr :=
  ⟨fun _ _ => ⟨unavailableErr, rfl, by decide⟩,
   claim_C3 alwaysUnavailable zeroRand DEFAULT_RETRY_CONFIG
     (fun _ _ => ⟨unavailableErr, rfl, by decide⟩)⟩

/-! ### Claim C4: backoff delays -/

/-- The capped exponential as a rational equals the cast of the natural
computation. -/
theorem cappedExponential_cast (cfg : RetryConfig) (n : ℕ) :
    min ((cfg.baseDelay : ℚ) * 2 ^ n) (cfg.maxDelay : ℚ) =
      ((min (cfg.baseDelay * 2 ^ n) cfg.maxDelay : ℕ) : ℚ) := by
  push_cast
  rfl

/-- With zero jitter the delay is exactly the capped exponential. -/
theorem calculateDelay_zero_jitter (cfg : RetryConfig) (n : ℕ) (r : ℚ)
    (hj : cfg.jitter = 0) :
    calculateDelay n cfg none r =
      min ((cfg.baseDelay : ℚ) * 2 ^ n) (cfg.maxDelay : ℚ) := by
  unfold calculateDelay
  simp only [hj, mul_zero, zero_mul, add_zero, mul_comm]
  rw [cappedExponential_cast, round_natCast]
  push_cast
  exact max_eq_right (by positivity)

/-- Claim C4: a positive retry-after hint yields `min(hint, maxDelay)`
independently of the attempt index, the jitter setting and the random draw;
with no hint and zero jitter the delay is exactly
`min(baseDelay * 2 ^ n, maxDelay)`, which is non-decreasing in `n`. -/
theorem claim_C4 (n : ℕ) (cfg : RetryConfig) (hv : cfg.Valid) (h r : ℚ) :
    (0 < h → calculateDelay n cfg (some h) r = min h (cfg.maxDelay : ℚ)) ∧
    (cfg.jitter = 0 →
      calculateDelay n cfg none r =
        min ((cfg.baseDelay : ℚ) * 2 ^ n) (cfg.maxDelay : ℚ) ∧
      ∀ m r2, n ≤ m → calculateDelay n cfg none r ≤ calculateDelay m cfg none r2) := by
  constructor
  · intro hpos
    simp [calculateDelay, hpos]
  · intro hj
    refine ⟨calculateDelay_zero_jitter cfg n r hj, fun m r2 hnm => ?_⟩
    rw [calculateDelay_zero_jitter cfg n r hj, calculateDelay_zero_jitter cfg m r2 hj]
    rw [cappedExponential_cast, cappedExponential_cast]
    rw [Nat.cast_le]
    exact min_le_min (Nat.mul_le_mul_left _ (Nat.pow_le_pow_right (by norm_num) hnm))
      (Nat.le_refl _)

/-- Witness for C4 at the jitter-free configuration. -/
theorem claim_C4_witness :
    zeroJitterConfig.Valid ∧
      (calculateDelay 0 zeroJitterConfig (some 5000) 0 = min (5000 : ℚ) 30000 ∧
        calculateDelay 2 zeroJitterConfig none 0 =
          min ((1000 : ℚ) * 2 ^ 2) 30000) :=
  ⟨⟨by norm_num [zeroJitterConfig], by norm_num [zeroJitterConfig],
      by norm_num [zeroJitterConfig], by norm_num [zeroJitterConfig]⟩,
   (claim_C4 0 zeroJitterConfig
      ⟨by norm_num [zeroJitterConfig], by norm_num [zeroJitterConfig],
       by norm_num [zeroJitterConfig], by norm_num [zeroJitterConfig]⟩ 5000 0).1
     (by norm_num),
   ((claim_C4 2 zeroJitterConfig
      ⟨by norm_num [zeroJitterConfig], by norm_num [zeroJitterConfig],
       by norm_num [zeroJitterConfig], by norm_num [zeroJitterConfig]⟩ 5000 0).2
     (by norm_num [zeroJitterConfig])).1⟩

/-! ### Claims C7 and C8: reaction state machine -/

/-- Claim C7: transitions follow the fixed graph — an accepted transition
from the null state targets `queued` and an accepted transition from state
`s` targets a member of `VALID_TRANSITIONS s`; terminal states absorb every
request, returning false, keeping the state and sending nothing; and every
rejected transition keeps the state and sends nothing. -/
theorem claim_C7 (emojis : ReactionState → String) (st : Option ReactionState)
    (next : ReactionState) (sendFails : Bool) :
    ((transition emojis st next sendFails).accepted = true →
      (st = none ∧ next = ReactionState.queued) ∨
      (∃ s, st = some s ∧ next ∈ VALID_TRANSITIONS s)) ∧
    (isTerminalState st = true →
      (transition emojis st next sendFails).accepted = false ∧
      (transition emojis st next sendFails).state = st ∧
      (transition emojis st next sendFails).sent = []) ∧
    ((transition emojis st next sendFails).accepted = false →
      (transition emojis st next sendFails).state = st ∧
      (transition emojis st next sendFails).sent = []) := by
  rcases st with _ | s
  · by_cases hq : next = ReactionState.queued <;>
      simp [transition, isTerminalState, hq]
  · cases s <;> cases next <;>
      simp [transition, isTerminalState, VALID_TRANSITIONS]

/-- Witness for C7: a terminal state absorbs, and an accepted step from
`queued` follows the graph. -/
theorem claim_C7_witness :
    ((transition DEFAULT_REACTION_EMOJIS (some ReactionState.done)
        ReactionState.active false).accepted = false ∧
      (transition DEFAULT_REACTION_EMOJIS (some ReactionState.done)
        ReactionState.active false).state = some ReactionState.done ∧
      (transition DEFAULT_REACTION_EMOJIS (some ReactionState.done)
        ReactionState.active false).sent = []) ∧
    ((some ReactionState.queued = (none : Option ReactionState) ∧
        ReactionState.active = ReactionState.queued) ∨
      (∃ s, some ReactionState.queued = some s ∧
        ReactionState.active ∈ VALID_TRANSITIONS s)) :=
  ⟨(claim_C7 DEFAULT_REACTION_EMOJIS (some ReactionState.done)
      ReactionState.active false).2.1 (by decide),
   (claim_C7 DEFAULT_REACTION_EMOJIS (some ReactionState.queued)
      ReactionState.active false).1 (by decide)⟩

/-- Claim C8: an accepted transition installs the new state and attempts to
send exactly its emoji; the returned boolean, the resulting state and the
attempted sends are the same whether the emoji send succeeds or rejects
(the rejection is caught and only warning-logged, with no rollback and no
throw). -/
theorem claim_C8 (emojis : ReactionState → String) (st : Option ReactionState)
    (next : ReactionState) (sendFails : Bool) :
    ((transition emojis st next sendFails).accepted = true →
      (transition emojis st next sendFails).state = some next ∧
      (transition emojis st next sendFails).sent = [emojis next]) ∧
    ((transition emojis st next sendFails).accepted =
        (transition emojis st next true).accepted ∧
      (transition emojis st next sendFails).state =
        (transition emojis st next true).state ∧
      (transition emojis st next sendFails).sent =
        (transition emojis st next true).sent) := by
  rcases st with _ | s
  · by_cases hq : next = ReactionState.queued <;>
      simp [transition, hq]
  · cases s <;> cases next <;>
      simp [transition, isTerminalState, VALID_TRANSITIONS]

/-- Witness for C8: an accepted `queued → active` transition whose emoji
send rejects still reports success and keeps the new state. -/
theorem claim_C8_witness :
    (transition DEFAULT_REACTION_EMOJIS (some ReactionState.queued)
        ReactionState.active true).accepted = true ∧
      (transition DEFAULT_REACTION_EMOJIS (some ReactionState.queued)
          ReactionState.active true).state = some ReactionState.active ∧
      (transition DEFAULT_REACTION_EMOJIS (some ReactionState.queued)
          ReactionState.active true).sent =
        [DEFAULT_REACTION_EMOJIS ReactionState.active] :=
  ⟨by decide,
   (claim_C8 DEFAULT_REACTION_EMOJIS (some ReactionState.queued)
      ReactionState.active true).1 (by decide)⟩

/-! ### Claim C10: lazy eviction of finalized streams -/

/-- Claim C10: for a registry entry that is already finalized, `interrupt`
returns false and leaves the registry unchanged, while `get` (lazy eviction)
and `finalize` are the operations that remove it. -/
theorem claim_C10 (omg : ℕ → SendOutcome) (reg : Registry) (jid : String)
    (s : StreamState) (hlook : List.lookup jid reg = some s)
    (hfin : s.finalized = true) :
    mgrInterrupt reg jid = (false, reg) ∧
      mgrGet reg jid = (none, eraseKey jid reg) ∧
      (mgrFinalize omg reg jid).2 = eraseKey jid reg := by
  refine ⟨?_, ?_, ?_⟩ <;> simp [mgrInterrupt, mgrGet, mgrFinalize, hlook, hfin]

/-- Witness for C10 at a one-entry registry holding a finalized stream. -/
theorem claim_C10_witness :
    List.lookup "jid1" finalizedRegistry = some finalizedStream ∧
      (mgrInterrupt finalizedRegistry "jid1" = (false, finalizedRegistry) ∧
        mgrGet finalizedRegistry "jid1" =
          (none, eraseKey "jid1" finalizedRegistry) ∧
        (mgrFinalize okSend finalizedRegistry "jid1").2 =
          eraseKey "jid1" finalizedRegistry) :=
  ⟨by decide,
   claim_C10 okSend finalizedRegistry "jid1" finalizedStream (by decide)
     (by decide)⟩

/-! ### Claim C5: split points -/

/-- The backwards-search scan only reports indices at most `upTo`. -/
theorem lastIndexOfLeAux_le (c : Char) (upTo : ℕ) :
    ∀ (l : List Char) (i : ℕ) (acc : Option ℕ),
      (∀ j, acc = some j → j ≤ upTo) →
      ∀ j, lastIndexOfLeAux c upTo l i acc = some j → j ≤ upTo := by
  intro l
  induction l with
  | nil => intro i acc hacc j hj; exact hacc j hj
  | cons x xs ih =>
    intro i acc hacc j hj
    rw [lastIndexOfLeAux] at hj
    refine ih (i + 1) _ ?_ j hj
    intro j2 hj2
    by_cases hcond : (x == c && decide (i ≤ upTo)) = true
    · rw [if_pos hcond] at hj2
      cases hj2
      simp only [Bool.and_eq_true, decide_eq_true_eq] at hcond
      exact hcond.2
    · rw [if_neg hcond] at hj2
      exact hacc j2 hj2

/-- `lastIndexOfLe` only reports indices at most `upTo`. -/
theorem lastIndexOfLe_le (text : List Char) (c : Char) (upTo j : ℕ)
    (hj : lastIndexOfLe text c upTo = some j) : j ≤ upTo :=
  lastIndexOfLeAux_le c upTo text 0 none (fun _ hcontra => by cases hcontra) j hj

/-- The sentence-boundary scan only reports match lengths at most
`i + l.length`. -/
theorem sentenceMatchLenAux_le :
    ∀ (l : List Char) (prev : Char) (i : ℕ) (acc : Option ℕ),
      (∀ m, acc = some m → m ≤ i) →
      ∀ m, sentenceMatchLenAux prev i l acc = some m → m ≤ i + l.length := by
  intro l
  induction l with
  | nil =>
    intro prev i acc hacc m hm
    rw [sentenceMatchLenAux] at hm
    simpa using hacc m hm
  | cons x xs ih =>
    intro prev i acc hacc m hm
    rw [sentenceMatchLenAux] at hm
    have := ih x (i + 1) _ ?_ m hm
    · simpa [Nat.add_assoc, Nat.add_comm 1 xs.length] using this
    · intro m2 hm2
      by_cases hcond : (SENTENCE_END_CHARS.contains prev && isWsChar x) = true
      · rw [if_pos hcond] at hm2
        cases hm2
        exact Nat.le_refl _
      · rw [if_neg hcond] at hm2
        exact Nat.le_succ_of_le (hacc m2 hm2)

/-- `sentenceMatchLen` only reports match lengths at most the scanned
length. -/
theorem sentenceMatchLen_le (s : List Char) (m : ℕ)
    (hm : sentenceMatchLen s = some m) : m ≤ s.length := by
  cases s with
  | nil => cases hm
  | cons c rest =>
    rw [sentenceMatchLen] at hm
    have := sentenceMatchLenAux_le rest c 1 none (fun _ hcontra => by cases hcontra) m hm
    simpa [Nat.add_comm] using this

/-- Bounds for the space stage. -/
theorem findSplitPointSpace_bounds (text : List Char) (maxLen : ℕ) :
    maxLen / 2 ≤ findSplitPointSpace text maxLen ∧
      findSplitPointSpace text maxLen ≤ maxLen + 1 := by
  unfold findSplitPointSpace
  rcases hsp : lastIndexOfLe text ' ' maxLen with _ | j
  · exact ⟨Nat.div_le_self _ _, Nat.le_succ _⟩
  · have hj := lastIndexOfLe_le text ' ' maxLen j hsp
    dsimp only
    split_ifs with hcond
    · omega
    · exact ⟨Nat.div_le_self _ _, Nat.le_succ _⟩

/-- Bounds for the newline stage. -/
theorem findSplitPointNewline_bounds (text : List Char) (maxLen : ℕ) :
    maxLen / 2 ≤ findSplitPointNewline text maxLen ∧
      findSplitPointNewline text maxLen ≤ maxLen + 1 := by
  unfold findSplitPointNewline
  rcases hn : lastIndexOfLe text '\n' maxLen with _ | j
  · exact findSplitPointSpace_bounds text maxLen
  · have hj := lastIndexOfLe_le text '\n' maxLen j hn
    dsimp only
    split_ifs with hcond
    · omega
    · exact findSplitPointSpace_bounds text maxLen

/-- Claim C5, amended: for overflowing text, `findSplitPoint` returns a value
in `[maxLen / 2, maxLen + 1]` — a newline or space boundary at index exactly
`maxLen` yields `maxLen + 1`, one past the claimed upper bound — and when no
boundary passes the (strict) midpoint test it returns exactly `maxLen`. -/
theorem claim_C5_amended (text : List Char) (maxLen : ℕ)
    (hlen : maxLen < text.length) :
    (maxLen / 2 ≤ findSplitPoint text maxLen ∧
      findSplitPoint text maxLen ≤ maxLen + 1) ∧
    (hasAcceptedBoundary text maxLen = false →
      findSplitPoint text maxLen = maxLen) := by
  have hnotle : ¬ (text.length ≤ maxLen) := by omega
  constructor
  · unfold findSplitPoint
    rw [if_neg hnotle]
    rcases hs : sentenceMatchLen (text.take maxLen) with _ | m
    · exact findSplitPointNewline_bounds text maxLen
    · have hm := sentenceMatchLen_le _ _ hs
      have hm2 : m ≤ maxLen := by
        have ht : (text.take maxLen).length = maxLen := by
          simp [List.length_take]
          omega
        omega
      dsimp only
      split_ifs with hcond
      · omega
      · exact findSplitPointNewline_bounds text maxLen
  · intro hb
    unfold hasAcceptedBoundary at hb
    simp only [Bool.or_eq_false_iff] at hb
    obtain ⟨⟨hb1, hb2⟩, hb3⟩ := hb
    unfold findSplitPoint findSplitPointNewline findSplitPointSpace
    rw [if_neg hnotle]
    rcases hs : sentenceMatchLen (text.take maxLen) with _ | m <;>
      rcases hn : lastIndexOfLe text '\n' maxLen with _ | j1 <;>
        rcases hsp : lastIndexOfLe text ' ' maxLen with _ | j2 <;>
          rw [hs] at hb1 <;> rw [hn] at hb2 <;> rw [hsp] at hb3 <;>
            simp only [Option.elim, decide_eq_false_iff_not] at hb1 hb2 hb3 <;>
              simp [hb1, hb2, hb3]

/-- Claim C5 as stated is false on the code: for `"ab\ncd"` with `maxLen = 2`
the newline boundary sits at index 2 (at the limit, past the midpoint), yet
`findSplitPoint` returns 3 — outside `[maxLen / 2, maxLen]` — and also not
`maxLen`, so neither reading of the claim survives. -/
theorem claim_C5_counterexample :
    ¬ ((hasAcceptedBoundary (("ab\ncd").toList) 2 = true →
          2 / 2 ≤ findSplitPoint (("ab\ncd").toList) 2 ∧
          findSplitPoint (("ab\ncd").toList) 2 ≤ 2) ∧
       (hasAcceptedBoundary (("ab\ncd").toList) 2 = false →
          findSplitPoint (("ab\ncd").toList) 2 = 2)) := by
  decide

/-- Witness for C5 on text whose only space boundary fails the midpoint
test: the split lands exactly at the limit. -/
theorem claim_C5_witness :
    (4 < (("ab cd e").toList).length) ∧
      ((4 / 2 ≤ findSplitPoint (("ab cd e").toList) 4 ∧
          findSplitPoint (("ab cd e").toList) 4 ≤ 4 + 1) ∧
        (hasAcceptedBoundary (("ab cd e").toList) 4 = false →
          findSplitPoint (("ab cd e").toList) 4 = 4)) :=
  ⟨by decide, claim_C5_amended (("ab cd e").toList) 4 (by decide)⟩

/-! ### Claim C6: overflow splitting loses no visible character -/

/-- Dropping a whitespace prefix does not change the non-whitespace
characters. -/
theorem nonWs_dropWhile_ws (l : List Char) :
    nonWs (l.dropWhile isWsChar) = nonWs l := by
  induction l with
  | nil => rfl
  | cons x xs ih =>
    rw [List.dropWhile_cons]
    by_cases hx : isWsChar x = true
    · rw [if_pos hx, ih]
      simp [nonWs, List.filter_cons, hx]
    · rw [if_neg hx]

/-- Reversal commutes with taking the non-whitespace characters. -/
theorem nonWs_reverse (l : List Char) : nonWs l.reverse = (nonWs l).reverse := by
  simp [nonWs, List.filter_reverse]

/-- Trimming does not change the non-whitespace characters. -/
theorem nonWs_trimChars (l : List Char) : nonWs (trimChars l) = nonWs l := by
  unfold trimChars
  rw [nonWs_reverse, nonWs_dropWhile_ws, nonWs_reverse, List.reverse_reverse,
    nonWs_dropWhile_ws]

/-- `nonWs` distributes over append. -/
theorem nonWs_append (a b : List Char) : nonWs (a ++ b) = nonWs a ++ nonWs b := by
  simp [nonWs, List.filter_append]

/-- A list trims to nothing exactly when it has no non-whitespace
characters. -/
theorem trimChars_eq_nil_iff (l : List Char) : trimChars l = [] ↔ nonWs l = [] := by
  constructor
  · intro h
    rw [← nonWs_trimChars l, h]
    rfl
  · intro h
    have hall : ∀ x ∈ l, isWsChar x = true := by
      intro x hx
      by_contra hcontra
      have : x ∈ nonWs l := by
        rw [nonWs, List.mem_filter]
        exact ⟨hx, by simp [hcontra]⟩
      rw [h] at this
      cases this
    have hdrop : l.dropWhile isWsChar = [] := by
      rw [List.dropWhile_eq_nil_iff]
      exact hall
    rw [trimChars, hdrop]
    rfl

/-- Trimming never lengthens a list. -/
theorem trimChars_length_le (l : List Char) : (trimChars l).length ≤ l.length := by
  unfold trimChars
  rw [List.length_reverse]
  calc ((l.dropWhile isWsChar).reverse.dropWhile isWsChar).length
      ≤ (l.dropWhile isWsChar).reverse.length :=
        (List.dropWhile_sublist _).length_le
    _ = (l.dropWhile isWsChar).length := List.length_reverse _
    _ ≤ l.length := (List.dropWhile_sublist _).length_le

/-- The space stage of the split point is positive for a positive limit. -/
theorem findSplitPointSpace_pos (text : List Char) (maxLen : ℕ)
    (hml : 1 ≤ maxLen) : 1 ≤ findSplitPointSpace text maxLen := by
  unfold findSplitPointSpace
  rcases lastIndexOfLe text ' ' maxLen with _ | j
  · exact hml
  · dsimp only
    split_ifs <;> omega

/-- The newline stage of the split point is positive for a positive limit. -/
theorem findSplitPointNewline_pos (text : List Char) (maxLen : ℕ)
    (hml : 1 ≤ maxLen) : 1 ≤ findSplitPointNewline text maxLen := by
  unfold findSplitPointNewline
  rcases lastIndexOfLe text '\n' maxLen with _ | j
  · exact findSplitPointSpace_pos text maxLen hml
  · dsimp only
    split_ifs with hcond
    · omega
    · exact findSplitPointSpace_pos text maxLen hml

/-- For overflowing text and a positive limit, the split point is
positive. -/
theorem findSplitPoint_pos (text : List Char) (maxLen : ℕ) (hml : 1 ≤ maxLen)
    (hlen : maxLen < text.length) : 1 ≤ findSplitPoint text maxLen := by
  unfold findSplitPoint
  rw [if_neg (by omega)]
  rcases sentenceMatchLen (text.take maxLen) with _ | m
  · exact findSplitPointNewline_pos text maxLen hml
  · dsimp only
    split_ifs with hcond
    · omega
    · exact findSplitPointNewline_pos text maxLen hml

/-- `flush` touches none of `content`, `cancelled`, `limit`, `finalized`,
`pendingContent`. -/
theorem flush_preserves (omg : ℕ → SendOutcome) (s : StreamState) :
    (flush omg s).content = s.content ∧ (flush omg s).cancelled = s.cancelled ∧
      (flush omg s).limit = s.limit ∧ (flush omg s).finalized = s.finalized ∧
      (flush omg s).pendingContent = s.pendingContent := by
  simp only [flush]
  split_ifs <;>
    first
      | exact ⟨rfl, rfl, rfl, rfl, rfl⟩
      | (rcases hk : s.messageKey with _ | k <;>
          rcases ho : omg s.sends.length with _ | _ | _ <;>
            simp [hk, ho])

/-- A flush on trimmed-empty content is skipped. -/
theorem flush_of_trim_nil (omg : ℕ → SendOutcome) (s : StreamState)
    (h : trimChars s.content = []) : flush omg s = s := by
  simp only [flush]
  rw [if_pos]
  simp [h]

/-- A first-message flush on changed, non-empty content whose send resolves
with a key: the payload is recorded, the key installed, `didStream` set, the
watermark updated and the success counted. -/
theorem flushOk_eq (omg : ℕ → SendOutcome) (s : StreamState)
    (hkey : s.messageKey = none) (hlfl : s.lastFlushLength = 0)
    (hcan : s.cancelled = false) (hok : omg s.sends.length = SendOutcome.okWithKey)
    (hne : trimChars s.content ≠ []) :
    flush omg s =
      { s with sends := s.sends ++ [trimChars s.content],
               messageKey := some s.sends.length, didStream := true,
               lastFlushLength := (trimChars s.content).length,
               flushSuccesses := s.flushSuccesses + 1 } := by
  simp only [flush]
  rw [if_neg (by simp [hcan, hne])]
  rw [if_neg (by simp [hlfl, hne])]
  rw [hkey, hok]

/-- `closeKey` always leaves the handle reset, and touches only
`completedKeys` and `messageKey`. -/
theorem closeKey_spec (s : StreamState) :
    (closeKey s).messageKey = none ∧ (closeKey s).sends = s.sends ∧
      (closeKey s).cancelled = s.cancelled ∧ (closeKey s).limit = s.limit ∧
      (closeKey s).content = s.content ∧
      (closeKey s).flushSuccesses = s.flushSuccesses := by
  rcases hk : s.messageKey with _ | k <;> simp [closeKey, hk]

/-- Under an always-succeeding transport, on a fresh message (no handle, zero
watermark, not cancelled), `overflowHead` appends exactly the trimmed head
payload to the sends — or nothing when the head trims to empty — and
preserves the bookkeeping fields that `handleOverflow` goes on to use. -/
theorem overflowHead_spec (omg : ℕ → SendOutcome) (s : StreamState)
    (hok : ∀ n, omg n = SendOutcome.okWithKey) (hkey : s.messageKey = none)
    (hlfl : s.lastFlushLength = 0) (hcan : s.cancelled = false) :
    ∃ d : List (List Char),
      (overflowHead omg s).sends = s.sends ++ d ∧
      nonWs d.flatten =
        nonWs (s.content.take (findSplitPoint s.content s.limit)) ∧
      (overflowHead omg s).cancelled = false ∧
      (overflowHead omg s).limit = s.limit := by
  unfold overflowHead
  by_cases hemp : (trimChars (s.content.take (findSplitPoint s.content s.limit))).isEmpty = true
  · rw [if_pos hemp]
    have hnil : trimChars (s.content.take (findSplitPoint s.content s.limit)) = [] := by
      simpa using hemp
    refine ⟨[], by simp, ?_, hcan, rfl⟩
    rw [show nonWs (List.flatten ([] : List (List Char))) = [] from rfl]
    exact ((trimChars_eq_nil_iff _).mp hnil).symm
  · rw [if_neg hemp]
    have hnil : trimChars (s.content.take (findSplitPoint s.content s.limit)) ≠ [] := by
      simpa using hemp
    have hnws : nonWs (s.content.take (findSplitPoint s.content s.limit)) ≠ [] :=
      fun hc => hnil ((trimChars_eq_nil_iff _).mpr hc)
    have hne2 : trimChars (trimChars (s.content.take (findSplitPoint s.content s.limit))) ≠ [] := by
      intro hcontra
      have h2 := (trimChars_eq_nil_iff _).mp hcontra
      rw [nonWs_trimChars] at h2
      exact hnws h2
    rw [flushOk_eq omg
      { s with content := trimChars (s.content.take (findSplitPoint s.content s.limit)) }
      hkey hlfl hcan (hok _) hne2]
    refine ⟨[trimChars (trimChars (s.content.take (findSplitPoint s.content s.limit)))],
      by simp, ?_, hcan, rfl⟩
    simp only [List.flatten_cons, List.flatten_nil, List.append_nil]
    rw [nonWs_trimChars, nonWs_trimChars]

/-- The shape of `overflowShift` needed by the splitting argument: content is
the trimmed remainder, the handle is reset, the watermark zero, cancellation
and the limit preserved, and the sends extended by the head payload. -/
theorem overflowShift_spec (omg : ℕ → SendOutcome) (s : StreamState)
    (hok : ∀ n, omg n = SendOutcome.okWithKey) (hkey : s.messageKey = none)
    (hlfl : s.lastFlushLength = 0) (hcan : s.cancelled = false) :
    (overflowShift omg s).content =
        trimChars (s.content.drop (findSplitPoint s.content s.limit)) ∧
      (overflowShift omg s).messageKey = none ∧
      (overflowShift omg s).lastFlushLength = 0 ∧
      (overflowShift omg s).cancelled = false ∧
      (overflowShift omg s).limit = s.limit ∧
      ∃ d : List (List Char),
        (overflowShift omg s).sends = s.sends ++ d ∧
        nonWs d.flatten =
          nonWs (s.content.take (findSplitPoint s.content s.limit)) := by
  obtain ⟨d, hd, hnd, hcan2, hlim2⟩ := overflowHead_spec omg s hok hkey hlfl hcan
  have hck := closeKey_spec (overflowHead omg s)
  refine ⟨rfl, ?_, rfl, ?_, ?_, d, ?_, hnd⟩
  · show (closeKey (overflowHead omg s)).messageKey = none
    exact hck.1
  · show (closeKey (overflowHead omg s)).cancelled = false
    rw [hck.2.2.1, hcan2]
  · show (closeKey (overflowHead omg s)).limit = s.limit
    rw [hck.2.2.2.1, hlim2]
  · show (closeKey (overflowHead omg s)).sends = s.sends ++ d
    rw [hck.2.1, hd]

/-- The splitting argument: under an always-succeeding transport, starting
from a fresh message (no handle, zero watermark, not cancelled) with a
positive limit and overflowing content, `handleOverflow` appends a sequence
of payloads whose concatenated non-whitespace characters are exactly those
of the content. -/
theorem handleOverflow_sends (omg : ℕ → SendOutcome)
    (hok : ∀ n, omg n = SendOutcome.okWithKey) :
    ∀ (N : ℕ) (s : StreamState), s.content.length ≤ N → s.messageKey = none →
      s.lastFlushLength = 0 → s.cancelled = false → 1 ≤ s.limit →
      s.limit < s.content.length →
      ∃ d : List (List Char),
        (handleOverflow omg s).sends = s.sends ++ d ∧
        nonWs d.flatten = nonWs s.content := by
  intro N
  induction N with
  | zero => intro s hN _ _ _ hlim hbig; omega
  | succ N ih =>
    intro s hN hkey hlfl hcan hlim hbig
    obtain ⟨hc3, hk3, hl3, hcan3, hlim3, d1, hd1, hnd1⟩ :=
      overflowShift_spec omg s hok hkey hlfl hcan
    have hsp1 : 1 ≤ findSplitPoint s.content s.limit :=
      findSplitPoint_pos s.content s.limit hlim hbig
    have hov_lt :
        (trimChars (s.content.drop (findSplitPoint s.content s.limit))).length <
          s.content.length := by
      have h1 := trimChars_length_le (s.content.drop (findSplitPoint s.content s.limit))
      have h2 : (s.content.drop (findSplitPoint s.content s.limit)).length =
          s.content.length - findSplitPoint s.content s.limit := by
        simp [List.length_drop]
      omega
    have hsplit : nonWs (s.content.take (findSplitPoint s.content s.limit)) ++
        nonWs (s.content.drop (findSplitPoint s.content s.limit)) = nonWs s.content := by
      rw [← nonWs_append, List.take_append_drop]
    rw [handleOverflow]
    rw [if_neg (by omega)]
    by_cases hrec :
        s.limit < (trimChars (s.content.drop (findSplitPoint s.content s.limit))).length
    · rw [if_pos hrec, dif_pos hov_lt]
      obtain ⟨d2, hd2, hnd2⟩ := ih (overflowShift omg s) (by rw [hc3]; omega) hk3 hl3
        hcan3 (by rw [hlim3]; exact hlim) (by rw [hlim3, hc3]; exact hrec)
      refine ⟨d1 ++ d2, ?_, ?_⟩
      · rw [hd2, hd1, List.append_assoc]
      · rw [List.flatten_append, nonWs_append, hnd1, hnd2, hc3, nonWs_trimChars]
        exact hsplit
    · rw [if_neg hrec]
      by_cases hemp :
          (trimChars (s.content.drop (findSplitPoint s.content s.limit))).isEmpty = true
      · rw [if_pos hemp]
        refine ⟨d1, hd1, ?_⟩
        have hnil : trimChars (s.content.drop (findSplitPoint s.content s.limit)) = [] := by
          simpa using hemp
        have hdrop0 : nonWs (s.content.drop (findSplitPoint s.content s.limit)) = [] :=
          (trimChars_eq_nil_iff _).mp hnil
        rw [hnd1, ← hsplit, hdrop0, List.append_nil]
      · rw [if_neg hemp]
        have hnil : trimChars (s.content.drop (findSplitPoint s.content s.limit)) ≠ [] := by
          simpa using hemp
        have hne2 : trimChars ((overflowShift omg s).content) ≠ [] := by
          rw [hc3]
          intro hcontra
          have h2 := (trimChars_eq_nil_iff _).mp hcontra
          rw [nonWs_trimChars] at h2
          exact hnil ((trimChars_eq_nil_iff _).mpr h2)
        rw [flushOk_eq omg (overflowShift omg s) hk3 hl3 hcan3 (hok _) hne2]
        refine ⟨d1 ++ [trimChars ((overflowShift omg s).content)], ?_, ?_⟩
        · show (overflowShift omg s).sends ++ _ = _
          rw [hd1, List.append_assoc]
        · rw [List.flatten_append, nonWs_append, hnd1]
          rw [show List.flatten [trimChars ((overflowShift omg s).content)] =
            trimChars ((overflowShift omg s).content) by simp]
          rw [hc3, nonWs_trimChars, nonWs_trimChars]
          exact hsplit

/-- Claim C6: for a fresh-message stream (no open handle, zero watermark, not
cancelled) whose buffered content exceeds the positive per-message limit,
recursive overflow splitting under an always-succeeding transport emits
payloads whose concatenation carries exactly the non-whitespace characters
of the original content, in order: nothing visible is lost, duplicated or
reordered, only boundary whitespace is trimmed. -/
theorem claim_C6 (omg : ℕ → SendOutcome) (s : StreamState)
    (hok : ∀ n, omg n = SendOutcome.okWithKey) (hkey : s.messageKey = none)
    (hlfl : s.lastFlushLength = 0) (hcan : s.cancelled = false)
    (hlim : 1 ≤ s.limit) (hbig : s.limit < s.content.length) :
    nonWs (((handleOverflow omg s).sends.drop s.sends.length).flatten) =
      nonWs s.content := by
  obtain ⟨d, hd, hnd⟩ := handleOverflow_sends omg hok s.content.length s
    (Nat.le_refl _) hkey hlfl hcan hlim hbig
  rw [hd, List.drop_left, hnd]

/-- Witness for C6 on a small stream: content "ab cd e" with limit 4 splits
into payloads whose visible characters are exactly "abcde". -/
theorem claim_C6_witness :
    ((∀ n, okSend n = SendOutcome.okWithKey) ∧
      smallOverflowState.messageKey = none ∧
      smallOverflowState.lastFlushLength = 0 ∧
      smallOverflowState.cancelled = false ∧
      1 ≤ smallOverflowState.limit ∧
      smallOverflowState.limit < smallOverflowState.content.length) ∧
    nonWs (((handleOverflow okSend smallOverflowState).sends.drop
        smallOverflowState.sends.length).flatten) =
      nonWs smallOverflowState.content :=
  ⟨⟨fun _ => rfl, rfl, rfl, rfl, by decide, by decide⟩,
   claim_C6 okSend smallOverflowState (fun _ => rfl) rfl rfl rfl (by decide)
     (by decide)⟩

/-! ### Claim C9: the message handle and flush successes -/

/-- The direction of C9 that holds: a present handle implies at least one
successful flush. -/
def streamInv (s : StreamState) : Prop :=
  s.messageKey.isSome = true → 1 ≤ s.flushSuccesses

/-- `flush` preserves the handle/success invariant. -/
theorem flush_inv (omg : ℕ → SendOutcome) (s : StreamState) (h : streamInv s) :
    streamInv (flush omg s) := by
  simp only [flush]
  split_ifs
  · exact h
  · exact h
  · rcases hk : s.messageKey with _ | k
    · rcases ho : omg s.sends.length with _ | _ | _ <;> simp only [hk, ho] <;> intro h2
      · show 1 ≤ s.flushSuccesses + 1
        omega
      · show 1 ≤ s.flushSuccesses + 1
        omega
      · exact absurd h2 (by simp)
    · rcases ho : omg s.sends.length with _ | _ | _ <;> simp only [hk, ho] <;> intro h2
      · show 1 ≤ s.flushSuccesses + 1
        omega
      · show 1 ≤ s.flushSuccesses + 1
        omega
      · exact h (by rw [hk]; rfl)

/-- `overflowShift` always resets the handle, so the invariant holds of its
result. -/
theorem overflowShift_inv (omg : ℕ → SendOutcome) (s : StreamState) :
    streamInv (overflowShift omg s) := by
  intro h2
  have : (overflowShift omg s).messageKey = none :=
    (closeKey_spec (overflowHead omg s)).1
  rw [this] at h2
  cases h2

/-- `handleOverflow` preserves the handle/success invariant. -/
theorem handleOverflow_inv (omg : ℕ → SendOutcome) :
    ∀ (N : ℕ) (s : StreamState), s.content.length ≤ N → streamInv s →
      streamInv (handleOverflow omg s) := by
  intro N
  induction N with
  | zero =>
    intro s hN h
    rw [handleOverflow, if_pos (by omega)]
    exact h
  | succ N ih =>
    intro s hN h
    rw [handleOverflow]
    split_ifs with h1 h2 h3 h4
    · exact h
    · exact ih (overflowShift omg s) (by
        have hlt : (overflowShift omg s).content.length < s.content.length := by
          simpa [overflowShift] using h3
        omega) (overflowShift_inv omg s)
    · exact overflowShift_inv omg s
    · exact overflowShift_inv omg s
    · exact flush_inv omg _ (overflowShift_inv omg s)

/-- `processPending` preserves the handle/success invariant. -/
theorem processPending_inv (omg : ℕ → SendOutcome) (s : StreamState)
    (h : streamInv s) : streamInv (processPending omg s) := by
  simp only [processPending]
  split_ifs with h1 h2 h3
  · exact h
  · exact h
  · exact handleOverflow_inv omg _ _ (Nat.le_refl _) h
  · exact flush_inv omg _ h

/-- One lifetime event preserves the handle/success invariant. -/
theorem streamStep_inv (omg : ℕ → SendOutcome) (s : StreamState)
    (op : StreamOp) (h : streamInv s) : streamInv (streamStep omg s op) := by
  cases op with
  | appendOp t =>
    simp only [streamStep, appendText]
    split_ifs <;> exact h
  | tick => exact processPending_inv omg s h
  | finalizeOp =>
    simp only [streamStep, finalizeStream]
    split_ifs with h1 h2 h3
    · exact h
    · exact flush_inv omg _ (processPending_inv omg _ h)
    · exact processPending_inv omg _ h
    · exact flush_inv omg _ h
    · exact h
  | cancelOp =>
    simp only [streamStep, cancelStream]
    split_ifs <;> exact h

/-- Claim C9, amended: at every point in a stream's lifetime, a present
handle implies that at least one flush succeeded since creation.  The
converse direction of the claim fails: `handleOverflow` resets the handle
after closing a message, so a successful flush can leave the handle
absent (see the counterexample). -/
theorem claim_C9_amended (omg : ℕ → SendOutcome) (limit : ℕ)
    (ops : List StreamOp)
    (h : (runStream omg limit ops).messageKey.isSome = true) :
    1 ≤ (runStream omg limit ops).flushSuccesses := by
  suffices hinv : ∀ (l : List StreamOp) (s : StreamState), streamInv s →
      streamInv (l.foldl (streamStep omg) s) by
    exact hinv ops (initStream limit) (fun hcontra => by cases hcontra) h
  intro l
  induction l with
  | nil => intro s hs; exact hs
  | cons op rest ih =>
    intro s hs
    exact ih (streamStep omg s op) (streamStep_inv omg s op hs)

/-- Witness for C9: after one flushed append the handle is present and one
flush succeeded. -/
theorem claim_C9_witness :
    (runStream okSend WHATSAPP_LIMIT
        [StreamOp.appendOp (("hi").toList), StreamOp.tick]).messageKey.isSome = true ∧
      1 ≤ (runStream okSend WHATSAPP_LIMIT
        [StreamOp.appendOp (("hi").toList), StreamOp.tick]).flushSuccesses :=
  ⟨by decide,
   claim_C9_amended okSend WHATSAPP_LIMIT
     [StreamOp.appendOp (("hi").toList), StreamOp.tick] (by decide)⟩

/-- The sentence scan reports nothing over whitespace-free text. -/
theorem sentenceMatchLenAux_no_ws :
    ∀ (l : List Char), (∀ x ∈ l, isWsChar x = false) →
      ∀ (prev : Char) (i : ℕ), sentenceMatchLenAux prev i l none = none := by
  intro l
  induction l with
  | nil => intro _ prev i; rfl
  | cons x xs ih =>
    intro hl prev i
    rw [sentenceMatchLenAux]
    rw [if_neg (by simp [hl x (by simp)])]
    exact ih (fun y hy => hl y (by simp [hy])) x (i + 1)

/-- No sentence boundary inside a run of `x` characters. -/
theorem sentenceMatchLen_replicate (n : ℕ) :
    sentenceMatchLen (List.replicate n ('x')) = none := by
  cases n with
  | zero => rfl
  | succ m =>
    rw [List.replicate_succ, sentenceMatchLen]
    exact sentenceMatchLenAux_no_ws _
      (fun y hy => by rw [List.eq_of_mem_replicate hy]; rfl) _ _

/-- The backwards-search scan over an append runs left part first. -/
theorem lastIndexOfLeAux_append (c : Char) (u : ℕ) :
    ∀ (l1 l2 : List Char) (i : ℕ) (acc : Option ℕ),
      lastIndexOfLeAux c u (l1 ++ l2) i acc =
        lastIndexOfLeAux c u l2 (i + l1.length) (lastIndexOfLeAux c u l1 i acc) := by
  intro l1
  induction l1 with
  | nil => intro l2 i acc; simp [lastIndexOfLeAux]
  | cons x xs ih =>
    intro l2 i acc
    rw [List.cons_append, lastIndexOfLeAux, ih, lastIndexOfLeAux]
    have harith : i + 1 + xs.length = i + (xs.length + 1) := by omega
    rw [harith]
    rfl

/-- The backwards-search scan over characters different from the needle
keeps its accumulator. -/
theorem lastIndexOfLeAux_skip (c : Char) (u : ℕ) :
    ∀ (l : List Char), (∀ x ∈ l, (x == c) = false) →
      ∀ (i : ℕ) (acc : Option ℕ), lastIndexOfLeAux c u l i acc = acc := by
  intro l
  induction l with
  | nil => intro _ i acc; rfl
  | cons x xs ih =>
    intro hl i acc
    rw [lastIndexOfLeAux]
    rw [if_neg (by simp [hl x (by simp)])]
    exact ih (fun y hy => hl y (by simp [hy])) (i + 1) acc

/-- The overflow counterexample content is one character past the limit. -/
theorem cexChars_length : cexChars.length = 4097 := by
  rw [cexChars, List.length_append, List.length_replicate]
  rfl

/-- Its first 4096 characters are the `x` run. -/
theorem cexChars_take : cexChars.take 4096 = List.replicate 4096 ('x') := by
  rw [cexChars]
  nth_rewrite 1 [show (4096 : ℕ) = (List.replicate 4096 ('x')).length by
    rw [List.length_replicate]]
  rw [List.take_left]

/-- It contains no newline at index at most 4096. -/
theorem cexChars_newline : lastIndexOfLe cexChars '\n' 4096 = none := by
  rw [lastIndexOfLe, cexChars, lastIndexOfLeAux_append,
    lastIndexOfLeAux_skip ('\n') 4096 (List.replicate 4096 ('x'))
      (fun y hy => by rw [List.eq_of_mem_replicate hy]; rfl) 0 none,
    List.length_replicate, lastIndexOfLeAux, if_neg (by decide)]
  rfl

/-- Its last space at index at most 4096 sits at index exactly 4096. -/
theorem cexChars_space : lastIndexOfLe cexChars ' ' 4096 = some 4096 := by
  rw [lastIndexOfLe, cexChars, lastIndexOfLeAux_append,
    lastIndexOfLeAux_skip (' ') 4096 (List.replicate 4096 ('x'))
      (fun y hy => by rw [List.eq_of_mem_replicate hy]; rfl) 0 none,
    List.length_replicate, lastIndexOfLeAux, if_pos (by decide)]
  rfl

/-- The split point of the counterexample content is one past the limit. -/
theorem cexChars_findSplitPoint : findSplitPoint cexChars 4096 = 4097 := by
  rw [findSplitPoint, if_neg (by rw [cexChars_length]; omega), cexChars_take,
    sentenceMatchLen_replicate, findSplitPointNewline, cexChars_newline,
    findSplitPointSpace, cexChars_space]
  norm_num

/-- Dropping whitespace from the head of an `x` run changes nothing. -/
theorem dropWhile_ws_replicate (n : ℕ) :
    List.dropWhile isWsChar (List.replicate n ('x')) = List.replicate n ('x') := by
  cases n with
  | zero => rfl
  | succ m => rw [List.replicate_succ, List.dropWhile_cons, if_neg (by decide)]

/-- An `x` run is already trimmed. -/
theorem trimChars_replicate (n : ℕ) :
    trimChars (List.replicate n ('x')) = List.replicate n ('x') := by
  rw [trimChars, dropWhile_ws_replicate, List.reverse_replicate,
    dropWhile_ws_replicate, List.reverse_replicate]

/-- The counterexample content trims to the `x` run. -/
theorem trimChars_cexChars : trimChars cexChars = List.replicate 4096 ('x') := by
  have hdw : List.dropWhile isWsChar cexChars = cexChars := by
    rw [cexChars, show (4096 : ℕ) = 4095 + 1 by norm_num, List.replicate_succ,
      List.cons_append, List.dropWhile_cons, if_neg (by decide)]
  have hrev : cexChars.reverse = ' ' :: List.replicate 4096 ('x') := by
    rw [cexChars, List.reverse_append, List.reverse_replicate]
    rfl
  rw [trimChars, hdw, hrev, List.dropWhile_cons, if_pos (by decide),
    dropWhile_ws_replicate, List.reverse_replicate]

/-- Dropping past its end empties the counterexample content. -/
theorem cexChars_drop : cexChars.drop 4097 = [] := by
  apply List.drop_eq_nil_of_le
  rw [cexChars_length]

/-- The handle after `overflowShift` is always reset. -/
theorem overflowShift_messageKey (omg : ℕ → SendOutcome) (s : StreamState) :
    (overflowShift omg s).messageKey = none :=
  (closeKey_spec (overflowHead omg s)).1

/-- `overflowShift` keeps the flush-success count of its head step. -/
theorem overflowShift_flushSuccesses (omg : ℕ → SendOutcome) (s : StreamState) :
    (overflowShift omg s).flushSuccesses = (overflowHead omg s).flushSuccesses :=
  (closeKey_spec (overflowHead omg s)).2.2.2.2.2

/-- After the append tick, the counterexample run is one `processPending`. -/
theorem cex_processPending :
    processPending okSend cexAfterAppend = handleOverflow okSend cexOverflowState := by
  have hflat : cexAfterAppend.pendingContent.flatten = cexChars := by
    show ([cexChars] : List (List Char)).flatten = cexChars
    simp
  have hconsform : cexChars = 'x' :: (List.replicate 4095 ('x') ++ [' ']) := by
    rw [cexChars, show (4096 : ℕ) = 4095 + 1 by norm_num, List.replicate_succ,
      List.cons_append]
  simp only [processPending, hflat]
  split_ifs with h1 h2 h3
  · exact absurd h1 (by decide)
  · exact absurd h2 (by rw [hconsform]; decide)
  · exact Eq.refl _
  · exfalso
    apply h3
    show (4096 : ℕ) < (cexAfterAppend.content ++ cexChars).length
    rw [show cexAfterAppend.content ++ cexChars = cexChars from rfl, cexChars_length]
    omega

/-- The counterexample overflow closes the message after flushing the `x`
run, leaving an empty remainder: one `overflowShift`. -/
theorem cex_handleOverflow :
    handleOverflow okSend cexOverflowState = overflowShift okSend cexOverflowState := by
  have hlim : cexOverflowState.limit = 4096 := rfl
  have hlenP : cexOverflowState.content.length = 4097 := cexChars_length
  have hdropP :
      trimChars (cexOverflowState.content.drop
        (findSplitPoint cexOverflowState.content cexOverflowState.limit)) = [] := by
    show trimChars (cexChars.drop (findSplitPoint cexChars 4096)) = []
    rw [cexChars_findSplitPoint, cexChars_drop]
    rfl
  rw [handleOverflow]
  split_ifs with h1 h2 h3 h4
  · exact absurd h1 (by rw [hlenP, hlim]; omega)
  · exfalso
    rw [hdropP] at h2
    exact absurd h2 (by decide)
  · exfalso
    rw [hdropP] at h2
    exact absurd h2 (by decide)
  · exact Eq.refl _
  · exfalso
    apply h4
    rw [hdropP]
    rfl

/-- The head of the counterexample overflow flushes the trimmed `x` run. -/
theorem cex_overflowHead :
    overflowHead okSend cexOverflowState =
      flush okSend { cexOverflowState with content := List.replicate 4096 ('x') } := by
  have htk : trimChars (cexOverflowState.content.take
      (findSplitPoint cexOverflowState.content cexOverflowState.limit)) =
      List.replicate 4096 ('x') := by
    show trimChars (cexChars.take (findSplitPoint cexChars 4096)) = _
    rw [cexChars_findSplitPoint,
      List.take_of_length_le (show cexChars.length ≤ 4097 by rw [cexChars_length]),
      trimChars_cexChars]
  rw [overflowHead]
  simp only [htk]
  split_ifs with hie
  · exact absurd hie (by
      rw [show (4096 : ℕ) = 4095 + 1 by norm_num, List.replicate_succ]
      decide)
  · exact Eq.refl _

/-- The append step of the counterexample run. -/
theorem cex_append :
    appendText (initStream WHATSAPP_LIMIT) cexChars = cexAfterAppend := by
  simp [appendText, cexAfterAppend, initStream]

/-- The full counterexample run ends in the shifted state. -/
theorem cexRun_shape :
    runStream okSend WHATSAPP_LIMIT cexOps = overflowShift okSend cexOverflowState := by
  simp only [runStream, cexOps, List.foldl_cons, List.foldl_nil]
  show processPending okSend (appendText (initStream WHATSAPP_LIMIT) cexChars) = _
  rw [cex_append, cex_processPending]
  exact cex_handleOverflow

/-- At the end of the counterexample run the handle is absent. -/
theorem cex_final_key :
    (runStream okSend WHATSAPP_LIMIT cexOps).messageKey = none :=
  (congrArg StreamState.messageKey cexRun_shape).trans
    (overflowShift_messageKey okSend cexOverflowState)

/-- Yet exactly one flush succeeded during the counterexample run. -/
theorem cex_final_fs :
    (runStream okSend WHATSAPP_LIMIT cexOps).flushSuccesses = 1 :=
  (congrArg StreamState.flushSuccesses cexRun_shape).trans
    ((overflowShift_flushSuccesses okSend cexOverflowState).trans
      ((congrArg StreamState.flushSuccesses cex_overflowHead).trans
        ((congrArg StreamState.flushSuccesses
          (flushOk_eq okSend
            { cexOverflowState with content := List.replicate 4096 ('x') }
            rfl rfl rfl rfl (by
              show trimChars (List.replicate 4096 ('x')) ≠ []
              rw [trimChars_replicate, show (4096 : ℕ) = 4095 + 1 by norm_num,
                List.replicate_succ]
              exact List.cons_ne_nil _ _))).trans rfl)))

/-- Claim C9 as stated is false on the code: appending content one character
past the limit (an `x` run followed by a space) and letting one tick run
performs one successful flush but leaves the message handle absent, because
`handleOverflow` closes the message and resets the handle while the trimmed
remainder is empty. -/
theorem claim_C9_counterexample :
    ¬ (((runStream okSend WHATSAPP_LIMIT cexOps).messageKey.isSome = true) ↔
       1 ≤ (runStream okSend WHATSAPP_LIMIT cexOps).flushSuccesses) := by
  rw [cex_final_key, cex_final_fs]
  decide

end Wopr
